import Mathlib

/-!
Verification of the charting library's viewport/coordinate-transform engine
and drawing-interaction state machine.

The embedding models, over exact rationals (standing in for JS numbers):
  * linear scales as produced by d3.scaleTime / d3.scaleLinear, as configured
    in ChartRenderer.tsx (domain endpoints, range endpoints);
  * d3 ZoomTransform objects (scale factor k, translations tx / ty) and their
    rescaleX / rescaleY semantics, as invoked in the zoom handlers of
    ChartRenderer.tsx;
  * the drawing lifecycle handlers of chart/drawingTools.ts and the inline
    handlers of ChartRenderer.tsx;
  * the wheel-gesture filters of the split-axis zoom variant;
  * indicator zipping (renderSMA / renderRSI) and calculateHeikinAshi.

Pixel-geometry hit-testing (drawingTools.ts isPointOnLine) uses square roots,
so that part of the model lives over the reals.
-/

namespace Charting

/-- A linear scale: domain `[d0, d1]` mapped affinely onto range `[r0, r1]`.
Embeds the d3 linear/time scales built in ChartRenderer.tsx (a time scale is
a linear scale on millisecond timestamps). -/
structure ScaleModel where
  d0 : ℚ
  d1 : ℚ
  r0 : ℚ
  r1 : ℚ
  deriving DecidableEq, Repr

/-- `scale(v)`: map a domain value to a pixel. -/
def ScaleModel.applyS (s : ScaleModel) (v : ℚ) : ℚ :=
  s.r0 + (v - s.d0) * (s.r1 - s.r0) / (s.d1 - s.d0)

/-- `scale.invert(p)`: map a pixel back to a domain value. -/
def ScaleModel.invertS (s : ScaleModel) (p : ℚ) : ℚ :=
  s.d0 + (p - s.r0) * (s.d1 - s.d0) / (s.r1 - s.r0)

/-- A d3 zoom transform: `apply(x) = k*x + tx` on the x axis and
`k*y + ty` on the y axis.  Embeds the `transform` object received by the
zoom handlers (ChartRenderer.tsx lines 81-94). -/
structure ZoomTransform where
  k : ℚ
  tx : ℚ
  ty : ℚ
  deriving DecidableEq, Repr

def ZoomTransform.applyX (t : ZoomTransform) (x : ℚ) : ℚ := t.k * x + t.tx

def ZoomTransform.invertX (t : ZoomTransform) (x : ℚ) : ℚ := (x - t.tx) / t.k

def ZoomTransform.applyY (t : ZoomTransform) (y : ℚ) : ℚ := t.k * y + t.ty

def ZoomTransform.invertY (t : ZoomTransform) (y : ℚ) : ℚ := (y - t.ty) / t.k

/-- `transform.rescaleX(xScale)` as called at ChartRenderer.tsx line 85:
returns a copy of the scale whose domain is the preimage of the range under
the transform; the range is copied unchanged and the base scale is not
mutated (the embedding is a pure function of the base). -/
def ZoomTransform.rescaleX (t : ZoomTransform) (s : ScaleModel) : ScaleModel :=
  { d0 := s.invertS (t.invertX s.r0)
    d1 := s.invertS (t.invertX s.r1)
    r0 := s.r0
    r1 := s.r1 }

/-- `transform.rescaleY(yScale)` as called at ChartRenderer.tsx line 86. -/
def ZoomTransform.rescaleY (t : ZoomTransform) (s : ScaleModel) : ScaleModel :=
  { d0 := s.invertS (t.invertY s.r0)
    d1 := s.invertS (t.invertY s.r1)
    r0 := s.r0
    r1 := s.r1 }

/-- Composition of zoom transforms: `(t2.comp t1) x = t2 (t1 x)` on both
axes. -/
def ZoomTransform.comp (t2 t1 : ZoomTransform) : ZoomTransform :=
  { k := t2.k * t1.k
    tx := t2.k * t1.tx + t2.tx
    ty := t2.k * t1.ty + t2.ty }

/-- Modelled from the spec: `applyZoomAtPoint(axis, factor, pixelAnchor)`
"must solve for a new domain such that the domain value currently under
`pixelAnchor` maps to the same pixel after rescaling".  The arithmetic lives
in the d3.zoom collaborator (not under src/): a wheel zoom by factor `f`
anchored at pixel `p` replaces the current transform `t` by the transform
with scale `f * t.k` whose inverse fixes `p`.  Stated here for the x axis;
the y axis is symmetric. -/
def zoomAtPoint (t : ZoomTransform) (f : ℚ) (p : ℚ) : ZoomTransform :=
  { k := f * t.k
    tx := p - f * (p - t.tx)
    ty := t.ty }

/-- The identity transform, `d3.zoomIdentity`. -/
def zoomIdentity : ZoomTransform := { k := 1, tx := 0, ty := 0 }

/-- A domain-coordinate anchor point of a drawing: `{ x: Date, y: number }`
(chart/types.ts lines 25-26), with the date as a millisecond timestamp. -/
structure DomainPoint where
  x : ℚ
  y : ℚ
  deriving DecidableEq, Repr

/-- `DrawingObject` of chart/types.ts lines 23-27: a shape kind plus start
and end anchors stored in domain coordinates only. -/
structure DrawingObject where
  kind : String
  start : DomainPoint
  endP : DomainPoint
  deriving DecidableEq, Repr

/-- Pixel endpoints produced by `renderTrendLine` (drawingTools.ts lines
5-13): on every render pass the anchors' pixel positions are recomputed by
applying the scales passed in to the stored domain coordinates. -/
def renderTrendLinePixels (d : DrawingObject) (xs ys : ScaleModel) :
    (ℚ × ℚ) × (ℚ × ℚ) :=
  ((xs.applyS d.start.x, ys.applyS d.start.y),
   (xs.applyS d.endP.x, ys.applyS d.endP.y))

/-- The chart's interaction state as far as pan/zoom is concerned: the
committed drawings list (`drawingsRef.current`) and the current zoom
transform held by the d3 zoom behavior. -/
structure ChartViewState where
  drawings : List DrawingObject
  transform : ZoomTransform
  deriving DecidableEq, Repr

/-- One pan/zoom event (ChartRenderer.tsx lines 81-94): the handler receives
the new transform, rescales the base scales and redraws; it never touches
`drawingsRef.current`. -/
def applyViewportUpdate (st : ChartViewState) (t : ZoomTransform) :
    ChartViewState :=
  { drawings := st.drawings, transform := t }

/-- The minimum-movement test of the drawingTools.ts mouseup handlers
(lines 326 and 719): the drawing counts as real movement when the start/end
timestamps differ by more than 1000 ms or the prices differ by more than
0.01. -/
def exceedsMoveThreshold (cur : DrawingObject) : Prop :=
  1000 < |cur.start.x - cur.endP.x| ∨ 1 / 100 < |cur.start.y - cur.endP.y|

instance (cur : DrawingObject) : Decidable (exceedsMoveThreshold cur) := by
  unfold exceedsMoveThreshold; infer_instance

/-- Effect of the drawingTools.ts mouseup handlers (lines 315-343 and
709-734) on the committed list: append the current drawing only when the
minimum-movement threshold is exceeded, otherwise discard it. -/
def mouseupCommit (ds : List DrawingObject) (cur : DrawingObject) :
    List DrawingObject :=
  if exceedsMoveThreshold cur then ds ++ [cur] else ds

/-- Effect of the inline mouseup handler of ChartRenderer.tsx (lines
1979-1996) on the committed list: `drawingsRef.current.push({...currentDrawing})`
is executed unconditionally, with no movement check. -/
def mouseupCommitCR (ds : List DrawingObject) (cur : DrawingObject) :
    List DrawingObject :=
  ds ++ [cur]

/-- The select-mode hit-test loop of the click handler (drawingTools.ts
lines 632-640): iterate over the committed list from the last index down,
stop at the first drawing the hit predicate accepts. -/
def findTopmost (ds : List DrawingObject) (hit : DrawingObject → Bool) :
    Option DrawingObject :=
  ds.reverse.find? hit

/-- State owned by `setupDrawingInteractions`: the committed list and the
`selectedDrawing` variable. -/
structure SelectState where
  drawings : List DrawingObject
  selected : Option DrawingObject
  deriving DecidableEq, Repr

/-- The select-mode click handler (drawingTools.ts lines 618-650):
`selectedDrawing = foundDrawing` where `foundDrawing` is the topmost hit or
null; a miss (or an empty list) leaves no selection. -/
def clickSelect (st : SelectState) (hit : DrawingObject → Bool) : SelectState :=
  { drawings := st.drawings, selected := findTopmost st.drawings hit }

/-- `indexOf` + `splice(index, 1)` of handleKeyDown (drawingTools.ts lines
745-747): drop the first occurrence of `d`; if `d` is absent the list is
returned unchanged (the index is -1, so no splice happens). -/
def removeFirst (ds : List DrawingObject) (d : DrawingObject) :
    List DrawingObject :=
  match ds with
  | [] => []
  | a :: rest => if a = d then rest else a :: removeFirst rest d

/-- `handleKeyDown` (drawingTools.ts lines 741-757): on Delete/Backspace in
select mode with a selection whose object is still in the list, remove it
and clear the selection; in every other case the state is untouched. -/
def handleKeyDown (drawingMode key : String) (st : SelectState) : SelectState :=
  match st.selected with
  | none => st
  | some d =>
    if drawingMode = "none" ∧ (key = "Delete" ∨ key = "Backspace") then
      if d ∈ st.drawings then
        { drawings := removeFirst st.drawings d, selected := none }
      else st
    else st

/-- Modifier-key state of a wheel event. -/
structure WheelEvent where
  shiftKey : Bool
  ctrlKey : Bool
  metaKey : Bool
  deriving DecidableEq, Repr

/-- Filter of the time-axis zoom behavior: `(event) => !event.shiftKey`. -/
def xZoomFilter (e : WheelEvent) : Bool := !e.shiftKey

/-- Filter of the price-axis zoom behavior: `(event) => event.shiftKey`. -/
def yZoomFilter (e : WheelEvent) : Bool := e.shiftKey

/-- Filter of the combined zoom behavior:
`(event) => event.ctrlKey || event.metaKey`. -/
def combinedZoomFilter (e : WheelEvent) : Bool := e.ctrlKey || e.metaKey

/-- An OHLCV series point (`CandleData`), with the date as a millisecond
timestamp. -/
structure Candle where
  date : ℤ
  isOpen : ℚ
  high : ℚ
  low : ℚ
  close : ℚ
  volume : ℚ
  deriving DecidableEq, Repr

/-- Modelled from the spec: the indicator-math collaborator's SMA
(`TI.SMA.calculate`, an external npm library) — "an SMA over period P
returns `series.length − P + 1` values starting at index `P−1`", each the
mean of one length-P window. -/
def smaCalculate (period : ℕ) (values : List ℚ) : List ℚ :=
  match values with
  | [] => []
  | _ :: rest =>
    if period ≤ values.length then
      (values.take period).sum / period :: smaCalculate period rest
    else []

/-- The date/value zipping of `renderSMA` (ChartRenderer.tsx lines 382-385):
`data.slice(period - 1).map((d, i) => ({ date: d.date, value: smaValues[i] }))`. -/
def renderSMAData (data : List Candle) (period : ℕ) : List (ℤ × ℚ) :=
  List.zip ((data.drop (period - 1)).map Candle.date)
    (smaCalculate period (data.map Candle.close))

/-- The date/value zipping of `renderRSI` (indicatorSettings.ts lines
312-324): nothing is rendered when the collaborator's value list is empty;
otherwise `data.slice(period).map((d, i) => ({ date: d.date, value:
rsiValues[i] || 50 }))` — the `||` falls back to 50 both for a missing
index and for a falsy (zero) value. -/
def renderRSIData (data : List Candle) (period : ℕ) (rsiValues : List ℚ) :
    List (ℤ × ℚ) :=
  if rsiValues = [] then []
  else (data.drop period).mapIdx fun i d =>
    (d.date, if rsiValues.getD i 0 = 0 then 50 else rsiValues.getD i 0)

/-- One step of `calculateHeikinAshi` (ChartRenderer.tsx lines 2296-2313):
the smoothed candle computed from the current raw candle and the previous
smoothed candle (none for the first index). -/
def heikinStep (prev : Option Candle) (cur : Candle) : Candle :=
  let haClose := (cur.isOpen + cur.high + cur.low + cur.close) / 4
  let haOpen := match prev with
    | some p => (p.isOpen + p.close) / 2
    | none => (cur.isOpen + cur.close) / 2
  { date := cur.date
    isOpen := haOpen
    high := max cur.high (max haOpen haClose)
    low := min cur.low (min haOpen haClose)
    close := haClose
    volume := cur.volume }

/-- The loop body of `calculateHeikinAshi`, carrying the previously pushed
smoothed candle. -/
def heikinGo (prev : Option Candle) : List Candle → List Candle
  | [] => []
  | cur :: rest =>
    let ha := heikinStep prev cur
    ha :: heikinGo (some ha) rest

/-- `calculateHeikinAshi` (ChartRenderer.tsx lines 2293-2316). -/
def calculateHeikinAshi (data : List Candle) : List Candle :=
  heikinGo none data

/-- `Math.sqrt(Math.pow(x2-x1,2) + Math.pow(y2-y1,2))` — the pixel distance
used throughout the drawingTools.ts hit tests. -/
noncomputable def distPx (x1 y1 x2 y2 : ℝ) : ℝ :=
  Real.sqrt ((x2 - x1) ^ 2 + (y2 - y1) ^ 2)

/-- `isPointOnLine` (drawingTools.ts lines 828-835): the triangle-inequality
test `|d(P,A) + d(P,B) - d(A,B)| ≤ tolerance`. -/
def isPointOnLine (px py x1 y1 x2 y2 tol : ℝ) : Prop :=
  |distPx px py x1 y1 + distPx px py x2 y2 - distPx x1 y1 x2 y2| ≤ tol

/-- The fixed pixel tolerance of `isPointOnDrawing` (drawingTools.ts line
772): `const tolerance = 5`. -/
def hitTolerance : ℝ := 5

/-- The `case 'line'` branch of `isPointOnDrawing` (drawingTools.ts lines
776-778), with `a`, `b` the line's anchors already pushed through the
current rescaled scales (pixel positions). -/
def isPointOnDrawingLine (px py : ℝ) (a b : ℝ × ℝ) : Prop :=
  isPointOnLine px py a.1 a.2 b.1 b.2 hitTolerance

/-! ### Helper lemmas on scales and transforms -/

theorem ScaleModel.applyS_invertS (s : ScaleModel) (p : ℚ)
    (hr : s.r0 ≠ s.r1) (hd : s.d0 ≠ s.d1) : s.applyS (s.invertS p) = p := by
  have hr' : s.r1 - s.r0 ≠ 0 := sub_ne_zero.mpr (Ne.symm hr)
  have hd' : s.d1 - s.d0 ≠ 0 := sub_ne_zero.mpr (Ne.symm hd)
  unfold ScaleModel.applyS ScaleModel.invertS
  field_simp
  ring

/-- The rescaled domain has width `(d1 - d0) / k`. -/
theorem ZoomTransform.rescaleX_width (t : ZoomTransform) (s : ScaleModel)
    (hk : t.k ≠ 0) (hr : s.r1 - s.r0 ≠ 0) :
    (t.rescaleX s).d1 - (t.rescaleX s).d0 = (s.d1 - s.d0) / t.k := by
  unfold ZoomTransform.rescaleX ZoomTransform.invertX ScaleModel.invertS
  field_simp
  ring

/-- A rescaled scale is the transform composed with the base scale, as pixel
maps. -/
theorem ZoomTransform.rescaleX_applyS (t : ZoomTransform) (s : ScaleModel)
    (v : ℚ) (hk : t.k ≠ 0) (hr : s.r0 ≠ s.r1) (hd : s.d0 ≠ s.d1) :
    (t.rescaleX s).applyS v = t.applyX (s.applyS v) := by
  have hr' : s.r1 - s.r0 ≠ 0 := sub_ne_zero.mpr (Ne.symm hr)
  have hd' : s.d1 - s.d0 ≠ 0 := sub_ne_zero.mpr (Ne.symm hd)
  unfold ScaleModel.applyS
  rw [ZoomTransform.rescaleX_width t s hk hr', div_div_eq_mul_div]
  simp only [ZoomTransform.rescaleX, ZoomTransform.applyX, ZoomTransform.invertX,
    ScaleModel.invertS]
  field_simp
  ring

/-- Inverting a rescaled scale undoes the transform first. -/
theorem ZoomTransform.rescaleX_invertS (t : ZoomTransform) (s : ScaleModel)
    (p : ℚ) (hk : t.k ≠ 0) (hr : s.r0 ≠ s.r1) :
    (t.rescaleX s).invertS p = s.invertS (t.invertX p) := by
  have hr' : s.r1 - s.r0 ≠ 0 := sub_ne_zero.mpr (Ne.symm hr)
  unfold ZoomTransform.rescaleX ZoomTransform.invertX
    ScaleModel.invertS
  field_simp
  ring

theorem ZoomTransform.rescaleY_invertS (t : ZoomTransform) (s : ScaleModel)
    (p : ℚ) (hk : t.k ≠ 0) (hr : s.r0 ≠ s.r1) :
    (t.rescaleY s).invertS p = s.invertS (t.invertY p) := by
  have hr' : s.r1 - s.r0 ≠ 0 := sub_ne_zero.mpr (Ne.symm hr)
  unfold ZoomTransform.rescaleY ZoomTransform.invertY
    ScaleModel.invertS
  field_simp
  ring

/-! ### C2: zoom anchored at a pixel keeps the anchored domain value fixed -/

/-- C2: for every base scale, current transform, pixel anchor `p` and zoom
factor `f`, the domain value that mapped to `p` before the zoom
(`(t.rescaleX s).invertS p`) maps to `p` again under the scale rescaled by
the anchored-zoom transform.  Exact over ℚ, hence within any floating-point
tolerance. -/
theorem zoom_anchor_fixed_point (s : ScaleModel) (t : ZoomTransform)
    (f p : ℚ) (hk : t.k ≠ 0) (hf : f ≠ 0)
    (hr : s.r0 ≠ s.r1) (hd : s.d0 ≠ s.d1) :
    ((zoomAtPoint t f p).rescaleX s).applyS ((t.rescaleX s).invertS p) = p := by
  have hk' : (zoomAtPoint t f p).k ≠ 0 := mul_ne_zero hf hk
  rw [ZoomTransform.rescaleX_applyS _ s _ hk' hr hd,
    ZoomTransform.rescaleX_invertS t s p hk hr,
    ScaleModel.applyS_invertS s _ hr hd]
  unfold zoomAtPoint ZoomTransform.applyX ZoomTransform.invertX
  field_simp
  ring

/-- C2 witness: a concrete anchored zoom (base domain `[0,100]` on range
`[0,500]`, identity current transform, factor 2, anchor 100). -/
theorem zoom_anchor_fixed_point_witness :
    ((zoomAtPoint ⟨1, 0, 0⟩ 2 100).rescaleX ⟨0, 100, 0, 500⟩).applyS
      ((ZoomTransform.rescaleX ⟨1, 0, 0⟩ ⟨0, 100, 0, 500⟩).invertS 100) = 100 :=
  zoom_anchor_fixed_point ⟨0, 100, 0, 500⟩ ⟨1, 0, 0⟩ 2 100
    (by norm_num) (by norm_num) (by norm_num) (by norm_num)

/-! ### C3: rescaling composes with transform composition -/

/-- C3: rescaling the base with `t1` and then rescaling the result with `t2`
equals rescaling the base once with the composed transform `t2 ∘ t1`, on both
axes; `rescaleX`/`rescaleY` are pure functions of the base scale, so the base
is never mutated. -/
theorem rescale_transform_composable (s : ScaleModel) (t1 t2 : ZoomTransform)
    (h1 : t1.k ≠ 0) (h2 : t2.k ≠ 0) (hr : s.r0 ≠ s.r1) :
    t2.rescaleX (t1.rescaleX s) = (t2.comp t1).rescaleX s ∧
    t2.rescaleY (t1.rescaleY s) = (t2.comp t1).rescaleY s := by
  have hr' : s.r1 - s.r0 ≠ 0 := sub_ne_zero.mpr (Ne.symm hr)
  constructor
  · show ZoomTransform.rescaleX _ _ = _
    unfold ZoomTransform.rescaleX ZoomTransform.comp ZoomTransform.invertX
      ScaleModel.invertS
    simp only [ScaleModel.mk.injEq]
    refine ⟨?_, ?_, trivial, trivial⟩ <;> (field_simp; ring)
  · show ZoomTransform.rescaleY _ _ = _
    unfold ZoomTransform.rescaleY ZoomTransform.comp ZoomTransform.invertY
      ScaleModel.invertS
    simp only [ScaleModel.mk.injEq]
    refine ⟨?_, ?_, trivial, trivial⟩ <;> (field_simp; ring)

/-- C3 witness: composing a zoom-in by 2 with a pan by 50 pixels on a
concrete base scale. -/
theorem rescale_transform_composable_witness :
    ZoomTransform.rescaleX ⟨3, 50, 0⟩ (ZoomTransform.rescaleX ⟨2, 10, 20⟩ ⟨0, 100, 0, 500⟩)
      = (ZoomTransform.comp ⟨3, 50, 0⟩ ⟨2, 10, 20⟩).rescaleX ⟨0, 100, 0, 500⟩ :=
  (rescale_transform_composable ⟨0, 100, 0, 500⟩ ⟨2, 10, 20⟩ ⟨3, 50, 0⟩
    (by norm_num) (by norm_num) (by norm_num)).1

/-! ### C1: committed drawings are zoom/pan-stable -/

/-- C1: (i) any sequence of pan/zoom viewport updates leaves the committed
list — and with it every drawing's stored start/end domain coordinates —
unchanged; (ii) on every render pass the drawing's pixel endpoints are
re-derived by applying the current rescaled scales to the stored domain
coordinates; (iii) hence an anchor that shares its domain coordinates with a
series point (e.g. a candle's date/high) renders at exactly that point's
pixel position under every transform — the drawing keeps its relative
position to the price series. -/
theorem drawing_domain_coordinates_stable (st : ChartViewState)
    (ts : List ZoomTransform) :
    (ts.foldl applyViewportUpdate st).drawings = st.drawings ∧
    (∀ d ∈ st.drawings, ∀ (tr : ZoomTransform) (xs ys : ScaleModel),
      renderTrendLinePixels d (tr.rescaleX xs) (tr.rescaleY ys) =
        (((tr.rescaleX xs).applyS d.start.x, (tr.rescaleY ys).applyS d.start.y),
         ((tr.rescaleX xs).applyS d.endP.x, (tr.rescaleY ys).applyS d.endP.y))) ∧
    (∀ d ∈ st.drawings, ∀ (tr : ZoomTransform) (xs ys : ScaleModel) (c : Candle),
      d.start.x = (c.date : ℚ) → d.start.y = c.high →
      (renderTrendLinePixels d (tr.rescaleX xs) (tr.rescaleY ys)).1 =
        ((tr.rescaleX xs).applyS (c.date : ℚ), (tr.rescaleY ys).applyS c.high)) := by
  refine ⟨?_, ?_, ?_⟩
  · induction ts generalizing st with
    | nil => rfl
    | cons t ts ih => simpa [applyViewportUpdate] using ih (applyViewportUpdate st t)
  · intro d _ tr xs ys
    rfl
  · intro d _ tr xs ys c hx hy
    simp [renderTrendLinePixels, hx, hy]

/-- C1 witness: a concrete drawing survives two successive viewport updates
with its domain coordinates intact. -/
theorem drawing_domain_coordinates_stable_witness :
    (List.foldl applyViewportUpdate
        ⟨[⟨"line", ⟨10, 105⟩, ⟨20, 110⟩⟩], zoomIdentity⟩
        [⟨2, -30, 0⟩, ⟨1/2, 40, 5⟩]).drawings
      = [⟨"line", ⟨10, 105⟩, ⟨20, 110⟩⟩] :=
  (drawing_domain_coordinates_stable
    ⟨[⟨"line", ⟨10, 105⟩, ⟨20, 110⟩⟩], zoomIdentity⟩ [⟨2, -30, 0⟩, ⟨1/2, 40, 5⟩]).1

/-! ### C4: minimum-movement threshold at mouseup -/

/-- C4 counterexample: the mouseup handler of ChartRenderer.tsx (lines
1979-1996) pushes the current drawing unconditionally, so a degenerate
drawing with `start == end` IS appended to the committed list on that
drawing-mode path, contradicting the claim that every pointer-up path
discards it. -/
theorem mouseup_chartrenderer_commits_degenerate :
    (DrawingObject.mk "line" ⟨0, 100⟩ ⟨0, 100⟩).start
        = (DrawingObject.mk "line" ⟨0, 100⟩ ⟨0, 100⟩).endP ∧
    mouseupCommitCR [] (DrawingObject.mk "line" ⟨0, 100⟩ ⟨0, 100⟩)
        = [DrawingObject.mk "line" ⟨0, 100⟩ ⟨0, 100⟩] :=
  ⟨rfl, rfl⟩

/-- C4 amended: in the drawingTools.ts mouseup handlers (lines 315-343 and
709-734) a drawing whose start equals its end is discarded, and a drawing is
appended if and only if the minimum-movement threshold (more than 1000 ms of
time displacement or more than 0.01 of price displacement) is exceeded; the
inline handler of ChartRenderer.tsx appends unconditionally and is exempt
from the rule. -/
theorem mouseup_threshold_drawingtools (ds : List DrawingObject)
    (cur : DrawingObject) :
    (cur.start = cur.endP → mouseupCommit ds cur = ds) ∧
    (exceedsMoveThreshold cur → mouseupCommit ds cur = ds ++ [cur]) ∧
    (¬ exceedsMoveThreshold cur → mouseupCommit ds cur = ds) := by
  refine ⟨?_, ?_, ?_⟩
  · intro h
    have : ¬ exceedsMoveThreshold cur := by
      simp [exceedsMoveThreshold, h]
    simp [mouseupCommit, this]
  · intro h
    simp [mouseupCommit, h]
  · intro h
    simp [mouseupCommit, h]

/-- C4 witness: a click without movement commits nothing; a real drag
(2000 ms, 5 price units) commits. -/
theorem mouseup_threshold_drawingtools_witness :
    mouseupCommit [] (DrawingObject.mk "line" ⟨0, 100⟩ ⟨0, 100⟩) = [] ∧
    mouseupCommit [] (DrawingObject.mk "line" ⟨0, 100⟩ ⟨2000, 105⟩)
      = [DrawingObject.mk "line" ⟨0, 100⟩ ⟨2000, 105⟩] :=
  ⟨(mouseup_threshold_drawingtools [] ⟨"line", ⟨0, 100⟩, ⟨0, 100⟩⟩).1 rfl,
   (mouseup_threshold_drawingtools [] ⟨"line", ⟨0, 100⟩, ⟨2000, 105⟩⟩).2.1
     (by simp [exceedsMoveThreshold]; norm_num)⟩

/-! ### C5: wheel-event modifier classification -/

/-- C5 counterexample: a ctrl-held wheel event (no shift) is accepted by BOTH
the combined-zoom filter and the time-axis filter (`!event.shiftKey`), so it
is not the case that exactly one of the three classifications applies per
event. -/
theorem ctrl_wheel_passes_two_filters :
    xZoomFilter ⟨false, true, false⟩ = true ∧
    combinedZoomFilter ⟨false, true, false⟩ = true ∧
    yZoomFilter ⟨false, true, false⟩ = false := by
  decide

/-- C5 amended: with no modifier only the time-axis filter accepts; with
shift alone only the price-axis filter accepts; with ctrl/cmd the combined
filter accepts — but the filters are not mutually exclusive: every ctrl/cmd
event is additionally accepted by the time-axis filter (no shift) or the
price-axis filter (shift).  The time- and price-axis filters themselves are
complementary. -/
theorem wheel_filter_classification (e : WheelEvent) :
    (e.shiftKey = false → e.ctrlKey = false → e.metaKey = false →
      xZoomFilter e = true ∧ yZoomFilter e = false ∧ combinedZoomFilter e = false) ∧
    (e.shiftKey = true → e.ctrlKey = false → e.metaKey = false →
      yZoomFilter e = true ∧ xZoomFilter e = false ∧ combinedZoomFilter e = false) ∧
    ((e.ctrlKey = true ∨ e.metaKey = true) →
      combinedZoomFilter e = true ∧ (xZoomFilter e = true ∨ yZoomFilter e = true)) ∧
    xZoomFilter e = !(yZoomFilter e) := by
  obtain ⟨s, c, m⟩ := e
  cases s <;> cases c <;> cases m <;>
    simp [xZoomFilter, yZoomFilter, combinedZoomFilter]

/-- C5 witness: the plain wheel event is classified as time-axis only. -/
theorem wheel_filter_classification_witness :
    xZoomFilter ⟨false, false, false⟩ = true ∧
    yZoomFilter ⟨false, false, false⟩ = false ∧
    combinedZoomFilter ⟨false, false, false⟩ = false :=
  (wheel_filter_classification ⟨false, false, false⟩).1 rfl rfl rfl

/-! ### C7: select-mode hit-test order and empty-list behavior -/

/-- C7: the select-mode click handler scans the committed list in reverse
z-order: the most recently committed drawing is tested first, so appending a
drawing makes it the first candidate; if no committed drawing matches (in
particular on the empty list) the result is no selection, and the handler is
total (no error). -/
theorem select_topmost_hit (hit : DrawingObject → Bool) :
    findTopmost [] hit = none ∧
    (∀ (ds : List DrawingObject) (d : DrawingObject),
      findTopmost (ds ++ [d]) hit =
        if hit d then some d else findTopmost ds hit) ∧
    (∀ ds : List DrawingObject, (∀ d ∈ ds, hit d = false) →
      findTopmost ds hit = none) ∧
    (∀ st : SelectState, st.drawings = [] → (clickSelect st hit).selected = none) := by
  refine ⟨rfl, ?_, ?_, ?_⟩
  · intro ds d
    by_cases hd : hit d <;>
      simp [findTopmost, List.find?, hd]
  · intro ds h
    simp only [findTopmost, List.find?_eq_none, List.mem_reverse]
    intro d hd
    simp [h d hd]
  · intro st hst
    simp [clickSelect, hst, findTopmost]

/-- C7 witness: with two committed drawings both hit by the predicate, the
later-committed (topmost) one is selected; the empty list yields no
selection. -/
theorem select_topmost_hit_witness :
    findTopmost [⟨"line", ⟨0, 0⟩, ⟨1, 1⟩⟩, ⟨"line", ⟨2, 2⟩, ⟨3, 3⟩⟩]
        (fun d => decide (d.kind = "line")) = some ⟨"line", ⟨2, 2⟩, ⟨3, 3⟩⟩ ∧
    findTopmost [] (fun d => decide (d.kind = "line")) = none := by
  constructor
  · have h := (select_topmost_hit (fun d => decide (d.kind = "line"))).2.1
      [⟨"line", ⟨0, 0⟩, ⟨1, 1⟩⟩] ⟨"line", ⟨2, 2⟩, ⟨3, 3⟩⟩
    simpa using h
  · exact (select_topmost_hit (fun d => decide (d.kind = "line"))).1

/-! ### C8: Delete/Backspace removes exactly the selected drawing -/

/-- `removeFirst` removes exactly the first occurrence of the selected
object, leaving all other elements and their order intact. -/
theorem removeFirst_append (l1 l2 : List DrawingObject) (d : DrawingObject)
    (hnot : d ∉ l1) : removeFirst (l1 ++ d :: l2) d = l1 ++ l2 := by
  induction l1 with
  | nil => simp [removeFirst]
  | cons a rest ih =>
    have ha : a ≠ d := by
      intro h
      exact hnot (by simp [h])
    have hrest : d ∉ rest := fun h => hnot (List.mem_cons_of_mem a h)
    simp [removeFirst, ha, ih hrest]

/-- C8: pressing Delete or Backspace in select mode (`drawingMode = "none"`)
with a selected drawing removes exactly that object (its first occurrence,
matching `indexOf`/`splice`) from the committed list and clears the
selection, leaving every other drawing and their relative order unchanged;
with no selection, or with a drawing mode active, the key press leaves the
state unchanged. -/
theorem delete_selected_drawing :
    (∀ (l1 l2 : List DrawingObject) (d : DrawingObject) (key : String),
      (key = "Delete" ∨ key = "Backspace") → d ∉ l1 →
      handleKeyDown "none" key ⟨l1 ++ d :: l2, some d⟩ = ⟨l1 ++ l2, none⟩) ∧
    (∀ (mode key : String) (st : SelectState), st.selected = none →
      handleKeyDown mode key st = st) ∧
    (∀ (mode key : String) (st : SelectState), mode ≠ "none" →
      handleKeyDown mode key st = st) := by
  refine ⟨?_, ?_, ?_⟩
  · intro l1 l2 d key hkey hnot
    have hmem : d ∈ l1 ++ d :: l2 := by simp
    rcases hkey with hk | hk <;> subst hk <;>
      simp [handleKeyDown, hmem, removeFirst_append l1 l2 d hnot]
  · intro mode key st hsel
    simp [handleKeyDown, hsel]
  · intro mode key st hmode
    obtain ⟨ds, sel⟩ := st
    cases sel with
    | none => rfl
    | some d =>
      simp only [handleKeyDown]
      rw [if_neg (fun h => hmode h.1)]

/-- C8 witness: deleting the selected middle drawing of three leaves the
other two in order and clears the selection. -/
theorem delete_selected_drawing_witness :
    handleKeyDown "none" "Delete"
        ⟨[⟨"line", ⟨0, 0⟩, ⟨1, 1⟩⟩] ++ ⟨"circle", ⟨5, 5⟩, ⟨6, 6⟩⟩ ::
          [⟨"rectangle", ⟨9, 9⟩, ⟨10, 10⟩⟩], some ⟨"circle", ⟨5, 5⟩, ⟨6, 6⟩⟩⟩
      = ⟨[⟨"line", ⟨0, 0⟩, ⟨1, 1⟩⟩] ++ [⟨"rectangle", ⟨9, 9⟩, ⟨10, 10⟩⟩], none⟩ :=
  (delete_selected_drawing).1 [⟨"line", ⟨0, 0⟩, ⟨1, 1⟩⟩]
    [⟨"rectangle", ⟨9, 9⟩, ⟨10, 10⟩⟩] ⟨"circle", ⟨5, 5⟩, ⟨6, 6⟩⟩ "Delete"
    (Or.inl rfl) (by decide)

/-! ### C9: indicator index offset when zipping values onto dates -/

/-- The collaborator's SMA output has `length + 1 - P` values (ℕ-truncated;
equal to `length - P + 1` whenever `P ≤ length`). -/
theorem smaCalculate_length (P : ℕ) (hP : 1 ≤ P) :
    ∀ values : List ℚ, (smaCalculate P values).length = values.length + 1 - P := by
  intro values
  induction values with
  | nil => simp [smaCalculate]; omega
  | cons v rest ih =>
    by_cases h : P ≤ rest.length + 1
    · simp only [smaCalculate, List.length_cons, if_pos h, List.length_cons, ih]
      omega
    · simp only [smaCalculate, List.length_cons, if_neg h, List.length_nil]
      omega

/-- C9: (i) the SMA collaborator returns `series.length − P + 1` values;
(ii) `renderSMA` zips them onto the dates starting at index `P−1`, i.e. the
date column of the zipped series is exactly `data.slice(P−1)`'s dates;
(iii) `renderRSI` with period 14 on a 50-point series renders a value series
of length `50 − 14 = 36`. -/
theorem indicator_index_offset :
    (∀ (P : ℕ) (values : List ℚ), 1 ≤ P → P ≤ values.length →
      (smaCalculate P values).length = values.length - P + 1) ∧
    (∀ (data : List Candle) (P : ℕ), 1 ≤ P → P ≤ data.length →
      List.map Prod.fst (renderSMAData data P) = (data.drop (P - 1)).map Candle.date) ∧
    (∀ (data : List Candle) (rsiValues : List ℚ),
      data.length = 50 → rsiValues ≠ [] →
      (renderRSIData data 14 rsiValues).length = 36) := by
  refine ⟨?_, ?_, ?_⟩
  · intro P values hP hle
    rw [smaCalculate_length P hP values]
    omega
  · intro data P hP hle
    unfold renderSMAData
    apply List.map_fst_zip
    rw [smaCalculate_length P hP (data.map Candle.close)]
    simp only [List.length_map, List.length_drop]
    omega
  · intro data rsiValues h50 hne
    simp [renderRSIData, hne, h50]

/-- C9 witness: SMA(2) over a 3-value series yields 2 values; its dates
start at index 1; a 50-point series with RSI(14) renders 36 values. -/
theorem indicator_index_offset_witness :
    (smaCalculate 2 [1, 2, 3]).length = 2 ∧
    List.map Prod.fst (renderSMAData
        [⟨0, 1, 1, 1, 1, 1⟩, ⟨1, 1, 1, 1, 2, 1⟩, ⟨2, 1, 1, 1, 3, 1⟩] 2)
      = [1, 2] ∧
    (renderRSIData (List.replicate 50 ⟨0, 1, 1, 1, 1, 1⟩) 14
        (List.replicate 36 (50 : ℚ))).length = 36 := by
  refine ⟨?_, ?_, ?_⟩
  · have h := indicator_index_offset.1 2 [1, 2, 3] (by norm_num) (by norm_num)
    simpa using h
  · have h := indicator_index_offset.2.1
      [⟨0, 1, 1, 1, 1, 1⟩, ⟨1, 1, 1, 1, 2, 1⟩, ⟨2, 1, 1, 1, 3, 1⟩] 2
      (by norm_num) (by norm_num)
    simpa using h
  · exact indicator_index_offset.2.2 (List.replicate 50 ⟨0, 1, 1, 1, 1, 1⟩)
      (List.replicate 36 (50 : ℚ)) (by simp) (by simp)

/-! ### C10: calculateHeikinAshi -/

theorem heikinGo_length (data : List Candle) :
    ∀ prev : Option Candle, (heikinGo prev data).length = data.length := by
  induction data with
  | nil => intro prev; rfl
  | cons c rest ih =>
    intro prev
    simp only [heikinGo, List.length_cons, ih]

theorem heikinGo_map_date (data : List Candle) :
    ∀ prev : Option Candle,
      (heikinGo prev data).map Candle.date = data.map Candle.date := by
  induction data with
  | nil => intro prev; rfl
  | cons c rest ih =>
    intro prev
    simp only [heikinGo, List.map_cons, ih]
    rfl

theorem heikinGo_map_volume (data : List Candle) :
    ∀ prev : Option Candle,
      (heikinGo prev data).map Candle.volume = data.map Candle.volume := by
  induction data with
  | nil => intro prev; rfl
  | cons c rest ih =>
    intro prev
    simp only [heikinGo, List.map_cons, ih]
    rfl

theorem heikinGo_zip (data : List Candle) :
    ∀ prev : Option Candle, ∀ p ∈ (heikinGo prev data).zip data,
      p.1.close = (p.2.isOpen + p.2.high + p.2.low + p.2.close) / 4 ∧
      p.1.high = max p.2.high (max p.1.isOpen p.1.close) ∧
      p.1.low = min p.2.low (min p.1.isOpen p.1.close) := by
  induction data with
  | nil => intro prev p hp; simp [heikinGo] at hp
  | cons c rest ih =>
    intro prev p hp
    simp only [heikinGo, List.zip_cons_cons, List.mem_cons] at hp
    rcases hp with h | h
    · subst h
      exact ⟨rfl, rfl, rfl⟩
    · exact ih (some (heikinStep prev c)) p h

theorem heikinGo_open_succ (data : List Candle) :
    ∀ (prev : Option Candle) (i : ℕ)
      (h1 : i + 1 < (heikinGo prev data).length)
      (h0 : i < (heikinGo prev data).length),
      ((heikinGo prev data).get ⟨i + 1, h1⟩).isOpen =
        (((heikinGo prev data).get ⟨i, h0⟩).isOpen +
          ((heikinGo prev data).get ⟨i, h0⟩).close) / 2 := by
  induction data with
  | nil => intro prev i h1 h0; simp [heikinGo] at h1
  | cons c rest ih =>
    intro prev i h1 h0
    match i with
    | 0 =>
      match rest with
      | [] => simp [heikinGo, heikinGo_length] at h1
      | r :: rest' => exact rfl
    | j + 1 =>
      have h1' : j + 1 < (heikinGo (some (heikinStep prev c)) rest).length := by
        simpa [heikinGo] using h1
      have h0' : j < (heikinGo (some (heikinStep prev c)) rest).length := by
        omega
      exact ih (some (heikinStep prev c)) j h1' h0'

theorem heikinGo_bounds (data : List Candle) :
    ∀ prev : Option Candle, ∀ hc ∈ heikinGo prev data,
      hc.low ≤ min hc.isOpen hc.close ∧ max hc.isOpen hc.close ≤ hc.high := by
  induction data with
  | nil => intro prev hc h; simp [heikinGo] at h
  | cons c rest ih =>
    intro prev hc h
    simp only [heikinGo, List.mem_cons] at h
    rcases h with h | h
    · subst h
      constructor
      · exact min_le_right _ _
      · exact le_max_right _ _
    · exact ih (some (heikinStep prev c)) hc h

/-- C10: `calculateHeikinAshi` preserves length, dates and volumes; every
output candle's close is the OHLC4 mean of the input candle; its high/low
are the max/min of the input high/low with the output open and close; the
first open is the mean of the first input's open and close and every later
open is the mean of the previous output's open and close; hence every output
candle satisfies `low ≤ min(open, close)` and `max(open, close) ≤ high`. -/
theorem heikin_ashi_spec (data : List Candle) :
    (calculateHeikinAshi data).length = data.length ∧
    (calculateHeikinAshi data).map Candle.date = data.map Candle.date ∧
    (calculateHeikinAshi data).map Candle.volume = data.map Candle.volume ∧
    (∀ p ∈ (calculateHeikinAshi data).zip data,
      p.1.close = (p.2.isOpen + p.2.high + p.2.low + p.2.close) / 4 ∧
      p.1.high = max p.2.high (max p.1.isOpen p.1.close) ∧
      p.1.low = min p.2.low (min p.1.isOpen p.1.close)) ∧
    (∀ (h0 : 0 < data.length) (h0' : 0 < (calculateHeikinAshi data).length),
      ((calculateHeikinAshi data).get ⟨0, h0'⟩).isOpen =
        ((data.get ⟨0, h0⟩).isOpen + (data.get ⟨0, h0⟩).close) / 2) ∧
    (∀ (i : ℕ) (h1 : i + 1 < (calculateHeikinAshi data).length)
        (h0 : i < (calculateHeikinAshi data).length),
      ((calculateHeikinAshi data).get ⟨i + 1, h1⟩).isOpen =
        (((calculateHeikinAshi data).get ⟨i, h0⟩).isOpen +
          ((calculateHeikinAshi data).get ⟨i, h0⟩).close) / 2) ∧
    (∀ hc ∈ calculateHeikinAshi data,
      hc.low ≤ min hc.isOpen hc.close ∧ max hc.isOpen hc.close ≤ hc.high) := by
  refine ⟨heikinGo_length data none, heikinGo_map_date data none,
    heikinGo_map_volume data none, heikinGo_zip data none, ?_,
    heikinGo_open_succ data none, heikinGo_bounds data none⟩
  intro h0 h0'
  match data with
  | c :: rest => rfl

/-- C10 witness: a concrete two-candle series evaluated through the
theorem's first-open and successor-open clauses. -/
theorem heikin_ashi_spec_witness :
    (calculateHeikinAshi [⟨0, 10, 20, 5, 15, 100⟩, ⟨1, 15, 25, 10, 20, 200⟩]).length = 2 ∧
    ((calculateHeikinAshi [⟨0, 10, 20, 5, 15, 100⟩, ⟨1, 15, 25, 10, 20, 200⟩]).get
        ⟨1, by decide⟩).isOpen =
      (((calculateHeikinAshi [⟨0, 10, 20, 5, 15, 100⟩, ⟨1, 15, 25, 10, 20, 200⟩]).get
          ⟨0, by decide⟩).isOpen +
        ((calculateHeikinAshi [⟨0, 10, 20, 5, 15, 100⟩, ⟨1, 15, 25, 10, 20, 200⟩]).get
          ⟨0, by decide⟩).close) / 2 := by
  constructor
  · have h := (heikin_ashi_spec [⟨0, 10, 20, 5, 15, 100⟩, ⟨1, 15, 25, 10, 20, 200⟩]).1
    simpa using h
  · exact (heikin_ashi_spec [⟨0, 10, 20, 5, 15, 100⟩, ⟨1, 15, 25, 10, 20, 200⟩]).2.2.2.2.2.1
      0 (by decide) (by decide)

/-! ### C6: line hit-testing tolerance -/

theorem distPx_comm (x1 y1 x2 y2 : ℝ) : distPx x1 y1 x2 y2 = distPx x2 y2 x1 y1 := by
  unfold distPx
  congr 1
  ring

/-- View of a pixel pair as a point of the Euclidean plane. -/
noncomputable def toE2 (x y : ℝ) : EuclideanSpace ℝ (Fin 2) :=
  (WithLp.equiv 2 (Fin 2 → ℝ)).symm ![x, y]

theorem distPx_eq_dist (x1 y1 x2 y2 : ℝ) :
    distPx x1 y1 x2 y2 = dist (toE2 x1 y1) (toE2 x2 y2) := by
  rw [EuclideanSpace.dist_eq, Fin.sum_univ_two]
  simp only [toE2, WithLp.equiv_symm_pi_apply, Matrix.cons_val_zero,
    Matrix.cons_val_one, Matrix.head_cons, Real.dist_eq, sq_abs]
  unfold distPx
  congr 1
  ring

theorem distPx_triangle (x1 y1 x2 y2 x3 y3 : ℝ) :
    distPx x1 y1 x3 y3 ≤ distPx x1 y1 x2 y2 + distPx x2 y2 x3 y3 := by
  rw [distPx_eq_dist, distPx_eq_dist, distPx_eq_dist]
  exact dist_triangle _ _ _

/-- Distances from a convex combination of the endpoints split the segment
length: `d(A,Q) = s·d(A,B)` and `d(Q,B) = (1−s)·d(A,B)`. -/
theorem distPx_segment (aX aY bX bY s : ℝ) (h0 : 0 ≤ s) (h1 : s ≤ 1) :
    distPx aX aY (aX + s * (bX - aX)) (aY + s * (bY - aY))
      = s * distPx aX aY bX bY ∧
    distPx (aX + s * (bX - aX)) (aY + s * (bY - aY)) bX bY
      = (1 - s) * distPx aX aY bX bY := by
  constructor
  · have h : (aX + s * (bX - aX) - aX) ^ 2 + (aY + s * (bY - aY) - aY) ^ 2
        = s ^ 2 * ((bX - aX) ^ 2 + (bY - aY) ^ 2) := by ring
    unfold distPx
    rw [h, Real.sqrt_mul (sq_nonneg s), Real.sqrt_sq h0]
  · have h : (bX - (aX + s * (bX - aX))) ^ 2 + (bY - (aY + s * (bY - aY))) ^ 2
        = (1 - s) ^ 2 * ((bX - aX) ^ 2 + (bY - aY) ^ 2) := by ring
    unfold distPx
    rw [h, Real.sqrt_mul (sq_nonneg (1 - s)), Real.sqrt_sq (by linarith)]

/-- C6 amended: the line hit test is the triangle-inequality test
`|d(P,A) + d(P,B) − d(A,B)| ≤ τ` with the fixed pixel tolerance `τ = 5`
against the anchors' current pixel positions, and every point within `τ/2`
pixels of the committed segment (witnessed by a point `Q = A + s·(B−A)`,
`s ∈ [0,1]`, within `τ/2` of `P`) is selected.  The claim's second
consequence — that a point `2τ` pixels away is never selected — is false;
see the counterexample. -/
theorem line_hit_triangle_tolerance :
    hitTolerance = 5 ∧
    ∀ pX pY aX aY bX bY s : ℝ, 0 ≤ s → s ≤ 1 →
      distPx pX pY (aX + s * (bX - aX)) (aY + s * (bY - aY)) ≤ hitTolerance / 2 →
      isPointOnDrawingLine pX pY (aX, aY) (bX, bY) := by
  refine ⟨rfl, ?_⟩
  intro pX pY aX aY bX bY s h0 h1 hq
  obtain ⟨hQA, hQB⟩ := distPx_segment aX aY bX bY s h0 h1
  have hPA : distPx pX pY aX aY ≤
      distPx pX pY (aX + s * (bX - aX)) (aY + s * (bY - aY)) +
        distPx (aX + s * (bX - aX)) (aY + s * (bY - aY)) aX aY :=
    distPx_triangle _ _ _ _ _ _
  have hPB : distPx pX pY bX bY ≤
      distPx pX pY (aX + s * (bX - aX)) (aY + s * (bY - aY)) +
        distPx (aX + s * (bX - aX)) (aY + s * (bY - aY)) bX bY :=
    distPx_triangle _ _ _ _ _ _
  have hQA' : distPx (aX + s * (bX - aX)) (aY + s * (bY - aY)) aX aY
      = s * distPx aX aY bX bY := by
    rw [distPx_comm]; exact hQA
  have hlow : distPx aX aY bX bY ≤ distPx pX pY aX aY + distPx pX pY bX bY := by
    have := distPx_triangle aX aY pX pY bX bY
    rwa [distPx_comm aX aY pX pY] at this
  have htol : distPx pX pY (aX + s * (bX - aX)) (aY + s * (bY - aY)) ≤ 5 / 2 := by
    simpa [hitTolerance] using hq
  unfold isPointOnDrawingLine isPointOnLine hitTolerance
  rw [abs_le]
  constructor
  · nlinarith [hQA', hQB, hPA, hPB, hlow, htol]
  · nlinarith [hQA', hQB, hPA, hPB, hlow, htol]

/-- C6 witness: the point `(5, 5/2)`, exactly `τ/2 = 2.5` pixels above the
midpoint of the horizontal segment from `(0,0)` to `(10,0)`, is selected. -/
theorem line_hit_triangle_tolerance_witness :
    isPointOnDrawingLine 5 (5 / 2) (0, 0) (10, 0) := by
  apply line_hit_triangle_tolerance.2 5 (5 / 2) 0 0 10 0 (1 / 2)
    (by norm_num) (by norm_num)
  unfold distPx hitTolerance
  rw [show ((0 : ℝ) + 1 / 2 * (10 - 0) - 5) ^ 2 + (0 + 1 / 2 * (0 - 0) - 5 / 2) ^ 2
      = ((5 : ℝ) / 2) ^ 2 by norm_num]
  rw [Real.sqrt_sq (by norm_num)]

/-- C6 counterexample: the point `(24, 10)` lies exactly `2τ = 10` pixels
from the committed segment from `(0,0)` to `(48,0)` (its orthogonal
projection is `(24, 0)`, and the whole segment lies on the axis `y = 0`
while the point has `y = 10`), yet the triangle-inequality test selects it:
`|26 + 26 − 48| = 4 ≤ 5`.  So a point `2τ` pixels away IS selected. -/
theorem triangle_test_accepts_far_point :
    distPx 24 10 24 0 = 2 * hitTolerance ∧
    isPointOnDrawingLine 24 10 (0, 0) (48, 0) := by
  have e1 : distPx 24 10 24 0 = 10 := by
    unfold distPx
    rw [show ((24 : ℝ) - 24) ^ 2 + (0 - 10) ^ 2 = (10 : ℝ) ^ 2 by norm_num]
    exact Real.sqrt_sq (by norm_num)
  have e2 : distPx 24 10 0 0 = 26 := by
    unfold distPx
    rw [show ((0 : ℝ) - 24) ^ 2 + (0 - 10) ^ 2 = (26 : ℝ) ^ 2 by norm_num]
    exact Real.sqrt_sq (by norm_num)
  have e3 : distPx 24 10 48 0 = 26 := by
    unfold distPx
    rw [show ((48 : ℝ) - 24) ^ 2 + (0 - 10) ^ 2 = (26 : ℝ) ^ 2 by norm_num]
    exact Real.sqrt_sq (by norm_num)
  have e4 : distPx 0 0 48 0 = 48 := by
    unfold distPx
    rw [show ((48 : ℝ) - 0) ^ 2 + ((0 : ℝ) - 0) ^ 2 = (48 : ℝ) ^ 2 by norm_num]
    exact Real.sqrt_sq (by norm_num)
  constructor
  · rw [e1]; norm_num [hitTolerance]
  · unfold isPointOnDrawingLine isPointOnLine hitTolerance
    rw [e2, e3, e4]
    norm_num

end Charting
